import Mathlib

/-!
Verification of the `argparseware` middleware pipeline against its
natural-language specification.

The Python source is shallowly embedded: Python `dict`s become association
lists with unique keys in insertion order (`Dict`), JSON-style values become
the inductive `Value`, and every middleware's `configure`/`run` method becomes
a pure Lean function over these types.  File I/O, the `anyconfig` loader and
the `json` module are external collaborators of the repository; where a
function consumes their output, the loaded document is a parameter of the
embedding and a small concrete model of `json.loads` is provided.
-/

namespace Argparseware

/-- A JSON-like runtime value, as produced by the `json` collaborator and
stored in Python dictionaries and argparse namespaces. -/
inductive Value where
  | str (s : String)
  | num (n : Int)
  | bool (b : Bool)
  | null
  | list (items : List Value)
  | dict (entries : List (String × Value))

/-- A Python `dict` with string keys: an association list with unique keys,
in insertion order. -/
abbrev Dict := List (String × Value)

/-- `d.get(k)`: the value at key `k`, or `None` (here `none`) when absent. -/
def dget (d : Dict) (k : String) : Option Value :=
  match d with
  | [] => none
  | (k', v) :: rest => if k' = k then some v else dget rest k

/-- `d[k] = v`: replace the value of an existing key in place (keeping its
insertion position, as Python dicts do) or append a fresh key at the end. -/
def dset (d : Dict) (k : String) (v : Value) : Dict :=
  match d with
  | [] => [(k, v)]
  | (k', v') :: rest => if k' = k then (k', v) :: rest else (k', v') :: dset rest k v

/-- The keys of a dictionary, in insertion order. -/
def dkeys (d : Dict) : List String := d.map Prod.fst

/-- `d.update(e)`: assign every entry of `e` into `d`, left to right. -/
def dupdate (d : Dict) (e : Dict) : Dict :=
  e.foldl (fun acc kv => dset acc kv.1 kv.2) d

/-- `del d[k]`: remove the key `k`. -/
def ddel (d : Dict) (k : String) : Dict :=
  d.filter (fun kv => kv.1 ≠ k)

mutual
/--
The inner loop of `merge_dicts` (src/argparseware/utils.py lines 28-39) over
one layer's items: for each `(key, value)` assign
`result[key] = <the branch value>`.  `data` is the *original* first argument
of the call — faithfully to the source, keys are checked against
`data.get(key)`, not against the accumulated `result`.
-/
def mergeLayer (data result : Dict) (layer : List (String × Value))
    (overwrite recurse : Bool) : Dict :=
  match layer with
  | [] => result
  | (key, value) :: rest =>
    mergeLayer data (dset result key (mergeVal data key value overwrite recurse))
      rest overwrite recurse

/--
The branch body of `merge_dicts` (src/argparseware/utils.py lines 29-39) for
one key: when both the layer value and `data.get(key)` are dicts and
`recurse` is set, recurse — the recursive call
`merge_dicts(data_value, value, overwrite=overwrite)` is a single-layer merge
whose `recurse` reverts to its default `True`; when the key is in `data`,
keep `data`'s value unless `overwrite`; else take the layer's value.
-/
def mergeVal (data : Dict) (key : String) (value : Value)
    (overwrite recurse : Bool) : Value :=
  match value, dget data key with
  | Value.dict vd, some (Value.dict dd) =>
    if recurse then Value.dict (mergeLayer dd dd vd overwrite true)
    else if overwrite then value else Value.dict dd
  | _, some dv => if overwrite then value else dv
  | _, none => value
end

/-- The outer loop of `merge_dicts`: fold the layers in order, each processed
against the original `data` while writing into the shared `result`. -/
def mergeGo (data result : Dict) (layers : List Dict) (overwrite recurse : Bool) : Dict :=
  match layers with
  | [] => result
  | layer :: rest => mergeGo data (mergeLayer data result layer overwrite recurse) rest overwrite recurse

/-- `merge_dicts(data, *args, overwrite=..., recurse=...)`
(src/argparseware/utils.py lines 8-41): `result = dict(data)`, then the loop. -/
def merge_dicts (data : Dict) (args : List Dict) (overwrite recurse : Bool) : Dict :=
  mergeGo data data args overwrite recurse

mutual
/-- Modelled from the spec: the merge loop as §4.1 describes it — one layer's
items processed against the *accumulated result* ("if absent from the
accumulated result, insert it; if present in both …").  Used only to compare
the spec's prescription with what `merge_dicts` computes. -/
def mergeSpecLayer (result : Dict) (layer : List (String × Value))
    (overwrite recurse : Bool) : Dict :=
  match layer with
  | [] => result
  | (key, value) :: rest =>
    mergeSpecLayer (dset result key (mergeSpecVal result key value overwrite recurse))
      rest overwrite recurse

/-- Modelled from the spec: the per-key rule of §4.1, nested merges
propagating the *same* `overwrite`/`recurse` flags. -/
def mergeSpecVal (result : Dict) (key : String) (value : Value)
    (overwrite recurse : Bool) : Value :=
  match value, dget result key with
  | Value.dict vd, some (Value.dict dd) =>
    if recurse then Value.dict (mergeSpecLayer dd vd overwrite recurse)
    else if overwrite then value else Value.dict dd
  | _, some dv => if overwrite then value else dv
  | _, none => value
end

/-- Modelled from the spec: `merge(base, *layers)` per §4.1, the layers
folded left to right over the accumulated result. -/
def merge_spec (data : Dict) (args : List Dict) (overwrite recurse : Bool) : Dict :=
  args.foldl (fun result layer => mergeSpecLayer result layer overwrite recurse) data

/-- Is the first list a prefix of the second? -/
def listPrefixOf : List Char → List Char → Bool
  | [], _ => true
  | _ :: _, [] => false
  | a :: as, b :: bs => a = b && listPrefixOf as bs

/-- `s.startswith(pre)` of Python. -/
def strStartsWith (s pre : String) : Bool := listPrefixOf pre.toList s.toList

/-- `s[n:]` of Python: drop the first `n` characters. -/
def strDrop (s : String) (n : Nat) : String := ⟨s.toList.drop n⟩

/-- `s.lower()` of Python. -/
def strLower (s : String) : String := ⟨s.toList.map Char.toLower⟩

/-- The decimal value of a nonempty all-digit character list, else `none`. -/
def digitsNat? : List Char → Option Nat
  | [] => none
  | cs => go cs 0
where go : List Char → Nat → Option Nat
  | [], acc => some acc
  | c :: rest, acc => if c.isDigit then go rest (acc * 10 + (c.toNat - 48)) else none

/-- The double-quote character. -/
def quoteChar : Char := Char.ofNat 34

/--
Model of the external `json.loads` collaborator, restricted to the literals
the configuration middleware exercises: `null`, the booleans, integers and
double-quoted strings decode; everything else is a decode failure (`none`),
which the middleware downgrade to a literal string.
-/
def jsonLoads (s : String) : Option Value :=
  if s = "null" then some Value.null
  else if s = "true" then some (Value.bool true)
  else if s = "false" then some (Value.bool false)
  else
    match digitsNat? s.toList with
    | some n => some (Value.num (Int.ofNat n))
    | none =>
      match s.toList with
      | [] => none
      | '-' :: rest =>
        match digitsNat? rest with
        | some n => some (Value.num (-(Int.ofNat n)))
        | none => none
      | c :: cs =>
        if c = quoteChar then
          match cs.getLast? with
          | some c2 => if c2 = quoteChar then some (Value.str ⟨cs.dropLast⟩) else none
          | none => none
        else none

/-- `try: value = json.loads(value) except JSONDecodeError: pass` — JSON
decoding with fallback to the literal string. -/
def decodeValue (s : String) : Value :=
  match jsonLoads s with
  | some v => v
  | none => Value.str s

/-- `item.split('=', 1)` guarded by `'=' in item`: `some (key, value)` when
the item contains a `'='` (split at the first one), `none` otherwise. -/
def splitEqGo (cs : List Char) (acc : List Char) : Option (List Char × List Char) :=
  match cs with
  | [] => none
  | c :: rest => if c = '=' then some (acc.reverse, rest) else splitEqGo rest (c :: acc)

/-- String wrapper around `splitEqGo`. -/
def splitEq (s : String) : Option (String × String) :=
  match splitEqGo s.toList [] with
  | some (k, v) => some (⟨k⟩, ⟨v⟩)
  | none => none

/--
The shared item loop of `InlineOptionMiddleware.run` (src/argparseware/config.py
lines 218-226) and `InlineConfigMiddleware.run` (lines 266-274): each entry
containing `'='` is split once at its first `'='`, its value JSON-decoded with
string fallback, and contributed as a singleton dict; entries without `'='`
are skipped.
-/
def parseInline : List String → List Dict
  | [] => []
  | item :: rest =>
    match splitEq item with
    | some (k, v) => [(k, decodeValue v)] :: parseInline rest
    | none => parseInline rest

/-- `InlineOptionMiddleware.run` with `merge` enabled collapses the parsed
singleton dicts into one dict (src/argparseware/config.py lines 228-232). -/
def inlineOptionMergeResult (raw : List String) : Dict :=
  (parseInline raw).foldl (fun acc item => dupdate acc item) []

/--
`InlineConfigMiddleware.run` (src/argparseware/config.py lines 262-283): the
raw `--env` entries are read from the `config_env` key of the namespace,
parsed by the shared item loop, merged into the namespace through
`merge_dicts`, the namespace updated with the result, and the consumed
`config_env` key deleted.
-/
def inlineConfigRun (ns : Dict) (overwrite recurse : Bool) : Dict :=
  let raw : List String :=
    match dget ns "config_env" with
    | some (Value.list xs) =>
      xs.filterMap (fun v => match v with | Value.str s => some s | _ => none)
    | _ => []
  let items := parseInline raw
  let result := merge_dicts ns items overwrite recurse
  ddel (dupdate ns result) "config_env"

/--
The environment scan of `EnvironmentConfigMiddleware.run`
(src/argparseware/config.py lines 317-329): keep exactly the variables whose
name starts with the configured prefix; when `lower` is set the stored key is
the name with the prefix stripped and lowercased, otherwise — faithfully to
the source, which only rewrites `key` inside `if self.lower:` — the stored
key is the *unmodified* variable name, prefix included.  Values are
JSON-decoded with string fallback.
-/
def envCollect (pfx : String) (lower : Bool) (env : List (String × String)) : Dict :=
  env.foldl
    (fun data kv =>
      if strStartsWith kv.1 pfx then
        dset data (if lower then strLower (strDrop kv.1 pfx.length) else kv.1) (decodeValue kv.2)
      else data)
    []

/-- `EnvironmentConfigMiddleware.run` (src/argparseware/config.py lines
313-336): merge the collected environment mapping into the namespace. -/
def environmentConfigRun (pfx : String) (lower overwrite recurse : Bool)
    (env : List (String × String)) (ns : Dict) : Dict :=
  dupdate ns (merge_dicts ns [envCollect pfx lower env] overwrite recurse)

/-- The `node` option of `ConfigMiddleware`: absent, a single segment, or a
list of segments (src/argparseware/config.py lines 93-98 normalise a string
to a one-element list). -/
inductive NodeSpec where
  | noneSpec
  | single (s : String)
  | many (segs : List String)

/-- Python truthiness of `self.node` (`if self.node:`). -/
def nodeTruthy : NodeSpec → Bool
  | NodeSpec.noneSpec => false
  | NodeSpec.single s => s ≠ ""
  | NodeSpec.many l => l ≠ []

/-- `[self.node] if isinstance(self.node, str) else self.node`. -/
def nodeSegments : NodeSpec → List String
  | NodeSpec.noneSpec => []
  | NodeSpec.single s => [s]
  | NodeSpec.many l => l

/--
The sub-node extraction loop of `ConfigMiddleware.run`
(src/argparseware/config.py lines 93-98).  Faithfully to the source, each
iteration reads `result.get(item, {})` — from the *top-level* merged result,
not from the subtree reached so far (`ref`) — so the walk never descends.
-/
def extractNode (result : Dict) (segs : List String) : Value :=
  segs.foldl (fun _ item => (dget result item).getD (Value.dict [])) (Value.dict result)

/--
Modelled from the spec: the walk §4.4 describes — "optional sub-node
extraction (dot/segment path into the loaded document) narrows the merged
result to a subtree" — descending segment by segment from the subtree reached
so far.  Used only to compare against `extractNode`.
-/
def extractNodeSpec (result : Dict) (segs : List String) : Value :=
  segs.foldl
    (fun ref item =>
      match ref with
      | Value.dict d => (dget d item).getD (Value.dict [])
      | _ => Value.dict [])
    (Value.dict result)

/--
`ConfigMiddleware.run` (src/argparseware/config.py lines 68-100), with the
document produced by the external `anyconfig.load` collaborator passed in as
`data`: merge it into the namespace, optionally extract the configured node,
and update the namespace with the result.  Updating with a non-mapping value
raises in Python; the embedding returns `none` there.  The `config_file` key
is never deleted.
-/
def configMiddlewareRun (ns : Dict) (data : Dict) (overwrite recurse : Bool)
    (node : NodeSpec) : Option Dict :=
  let result := merge_dicts ns [data] overwrite recurse
  let resultV : Value :=
    if nodeTruthy node then extractNode result (nodeSegments node) else Value.dict result
  match resultV with
  | Value.dict d => some (dupdate ns d)
  | _ => none

/-- A parser instance: an identity (Python object identity) plus the flags
registered on it so far, in registration order. -/
structure ParserModel where
  pid : Nat
  flags : List String

/-- `ConfigMiddleware.configure` (src/argparseware/config.py lines 60-66):
unconditionally registers `-c, --config`; the middleware keeps no record of
which parser it configured. -/
def configMiddlewareConfigure (p : ParserModel) : ParserModel :=
  { p with flags := p.flags ++ ["--config"] }

/-- `InlineConfigMiddleware.configure` (src/argparseware/config.py lines
254-260): unconditionally registers `-e, --env`; no parser record either. -/
def inlineConfigConfigure (p : ParserModel) : ParserModel :=
  { p with flags := p.flags ++ ["--env"] }

/-- The state of a `CommandsMiddleware`: its registered command path strings
and `self.argparser`, the identity of the last parser configured. -/
structure CommandsMiddlewareState where
  commands : List String
  argparser : Option Nat

/-- `CommandsMiddleware.configure` (src/argparseware/commands/__init__.py
lines 128-139): if `self.argparser is parser`, return unchanged; otherwise
record the parser and apply every command, sorted by path string. -/
def commandsMiddlewareConfigure (m : CommandsMiddlewareState) (p : ParserModel) :
    CommandsMiddlewareState × ParserModel :=
  if m.argparser = some p.pid then (m, p)
  else
    ({ m with argparser := some p.pid },
     { p with flags := p.flags ++ m.commands.mergeSort (fun a b => a ≤ b) })

/-- A middleware, for the configure-phase loop: configuring it registers the
middlewares in `children` onto the same pipeline (via `add_middleware`). -/
inductive MW where
  | node : List MW → MW

/-- The middlewares a middleware's `configure` appends to the pipeline. -/
def MW.children : MW → List MW
  | MW.node cs => cs

/-- Supports termination of `configureLoop`: the summed size of the appended
children is smaller than the middleware itself. -/
theorem MW.sum_children_sizeOf_lt (m : MW) :
    ((MW.children m).map sizeOf).sum < sizeOf m := by
  obtain ⟨cs⟩ := m
  have h : ∀ l : List MW, (l.map sizeOf).sum ≤ sizeOf l := by
    intro l
    induction l with
    | nil => simp
    | cons c cs ih => simp; omega
  have := h cs
  simp [MW.children]
  omega

/--
The configure-phase loop of `ArgumentParser.parse_args`
(src/argparseware/core.py lines 110-125): traverse the middleware list by
index, configuring each item — which may append new middlewares — and
re-check the (possibly grown) length each iteration until the index reaches
the end.  Returns the final middleware list and the middlewares configured,
in order.
-/
def configureLoop (mws : List MW) (i : Nat) (done : List MW) : List MW × List MW :=
  if h : i < mws.length then
    configureLoop (mws ++ (mws[i]).children) (i + 1) (done ++ [mws[i]])
  else (mws, done)
termination_by ((mws.drop i).map sizeOf).sum
decreasing_by
  rw [List.drop_append_of_le_length (by omega), List.drop_eq_getElem_cons h]
  simp only [List.map_append, List.sum_append, List.map_cons, List.sum_cons]
  have := MW.sum_children_sizeOf_lt mws[i]
  omega

/-- The configure phase over an initial pipeline (`parse_args` before it
delegates to the base parser). -/
def configurePhase (mws : List MW) : List MW × List MW :=
  configureLoop mws 0 []

/-- `sep.join(parts)` of Python: the parts joined with the separator. -/
def pyJoin (sep : String) : List String → String
  | [] => ""
  | [x] => x
  | x :: y :: rest => x ++ sep ++ pyJoin sep (y :: rest)

/-- A registered command: its path string (`self.command`) and whether it
carries a handler. -/
structure Command where
  command : String
  hasHandler : Bool

/-- The synthetic, level-scoped namespace key for a nesting depth:
`'{}{}'.format(TEMP_PREFIX, '_'.join(parts))` with `TEMP_PREFIX = '__cmd_'`
(src/argparseware/commands/__init__.py lines 38, 97, 148). -/
def tempKey (parts : List String) : String :=
  "__cmd_" ++ pyJoin "_" parts

/-- Supports termination of `walkParts`: deleting a present key shortens the
dictionary. -/
theorem ddel_length_lt (d : Dict) (k : String) (v : Value) (h : dget d k = some v) :
    (ddel d k).length < d.length := by
  induction d with
  | nil => simp [dget] at h
  | cons kv rest ih =>
    by_cases hk : kv.1 = k
    · have : (ddel (kv :: rest) k).length ≤ rest.length := by
        simp [ddel, List.filter_cons, hk]
        exact List.length_filter_le _ _
      simp
      omega
    · have hrest : dget rest k = some v := by
        obtain ⟨k', v'⟩ := kv
        simp_all [dget]
      have := ih hrest
      simp [ddel, List.filter_cons, hk] at *
      omega

/--
The path-reconstruction loop of `CommandsMiddleware.run`
(src/argparseware/commands/__init__.py lines 145-155): starting from the
depth-0 synthetic key, read the chosen subcommand at each depth, deleting
each synthetic key as it is consumed, until a key is missing (AttributeError)
or holds `None`.  Returns the reconstructed path segments and the namespace
with the consumed keys removed.  (argparse stores each choice as a string or
`None`; any other value stops the walk.)
-/
def walkParts (ns : Dict) (parts : List String) : List String × Dict :=
  match h : dget ns (tempKey parts) with
  | none => (parts, ns)
  | some v =>
    match v with
    | Value.null => (parts, ddel ns (tempKey parts))
    | Value.str s => walkParts (ddel ns (tempKey parts)) (parts ++ [s])
    | _ => (parts, ddel ns (tempKey parts))
termination_by ns.length
decreasing_by
  exact ddel_length_lt ns (tempKey parts) _ h

/-- The outcome of `CommandsMiddleware.run`: either the command with the
given path was dispatched (invoking its handler if it has one), or no exact
match existed and the middleware fell back to help output and exit. -/
inductive RunOutcome where
  | dispatched (path : String) (invokedHandler : Bool)
  | helpExit

/--
`CommandsMiddleware.run` (src/argparseware/commands/__init__.py lines
141-170): reconstruct the chosen path, join it with spaces, store it under
`dest` when one is configured, then scan the registered commands in order and
dispatch to the first whose path string equals the name exactly; with no
match, print help and exit.
-/
def commandsRun (cmds : List Command) (dest : Option String) (ns : Dict) :
    RunOutcome × Dict :=
  let walked := walkParts ns []
  let name := pyJoin " " walked.1
  let ns2 :=
    match dest with
    | some d => dset walked.2 d (Value.str name)
    | none => walked.2
  match cmds.find? (fun c => c.command == name) with
  | some c => (RunOutcome.dispatched c.command c.hasHandler, ns2)
  | none => (RunOutcome.helpExit, ns2)

/--
Claim C1: the spec says `merge` processes each key of each layer against the
*accumulated result*.  The code (src/argparseware/utils.py line 29) consults
`data.get(key)` — the original base mapping — instead, contradicting the
docstring's promise that with `overwrite` false values from previous
dictionaries are not overwritten.  At base `{}` and layers `{'a': 1}`,
`{'a': 2}` with `overwrite=False`: the code returns `{'a': 2}` while the
spec-prescribed accumulated-result merge (`merge_spec`) returns `{'a': 1}`.
-/
theorem merge_consults_base_not_accumulated_result :
    merge_dicts [] [[("a", Value.num 1)], [("a", Value.num 2)]] false true
      = [("a", Value.num 2)] ∧
    merge_spec [] [[("a", Value.num 1)], [("a", Value.num 2)]] false true
      = [("a", Value.num 1)] ∧
    merge_dicts [] [[("a", Value.num 1)], [("a", Value.num 2)]] false true
      ≠ merge_spec [] [[("a", Value.num 1)], [("a", Value.num 2)]] false true := by
  refine ⟨rfl, rfl, fun h => ?_⟩
  have h2 : [("a", Value.num 2)] = [("a", Value.num 1)] := h
  simp at h2

/--
Claim C2: the spec says `merge({}, *layers, overwrite=False)` never changes a
key already present in an earlier layer (first layer wins).  Because the code
checks keys against the empty base rather than the accumulated result, every
key of every layer takes the `else` branch and the *last* layer wins: over an
empty base the layers `{'x': 'first'}`, `{'x': 'second'}` with
`overwrite=False` produce `{'x': 'second'}`, not `{'x': 'first'}`.
-/
theorem merge_empty_base_last_layer_wins :
    merge_dicts [] [[("x", Value.str "first")], [("x", Value.str "second")]] false true
      = [("x", Value.str "second")] ∧
    merge_dicts [] [[("x", Value.str "first")], [("x", Value.str "second")]] false true
      ≠ [("x", Value.str "first")] := by
  refine ⟨rfl, fun h => ?_⟩
  have h2 : [("x", Value.str "second")] = [("x", Value.str "first")] := h
  simp at h2

/--
Claim C3: the spec claims `merge(merge(a,b),c) == merge(a,b,c)` under
`overwrite=True, recurse=True` for triples without nested-type conflicts.
With `a = {}`, `b = {'k': {'y': 2}}`, `c = {'k': {'z': 3}}` (no type
conflict anywhere), `merge(merge(a,b),c)` recursively merges the two nested
dicts into `{'k': {'y': 2, 'z': 3}}`, while `merge(a,b,c)` looks `'k'` up in
the original empty base, finds nothing, and ends with `{'k': {'z': 3}}` —
the two sides differ, again because the code consults the base instead of
the accumulated result.
-/
theorem merge_not_associative :
    merge_dicts (merge_dicts [] [[("k", Value.dict [("y", Value.num 2)])]] true true)
        [[("k", Value.dict [("z", Value.num 3)])]] true true
      = [("k", Value.dict [("y", Value.num 2), ("z", Value.num 3)])] ∧
    merge_dicts [] [[("k", Value.dict [("y", Value.num 2)])],
        [("k", Value.dict [("z", Value.num 3)])]] true true
      = [("k", Value.dict [("z", Value.num 3)])] ∧
    merge_dicts (merge_dicts [] [[("k", Value.dict [("y", Value.num 2)])]] true true)
        [[("k", Value.dict [("z", Value.num 3)])]] true true
      ≠ merge_dicts [] [[("k", Value.dict [("y", Value.num 2)])],
          [("k", Value.dict [("z", Value.num 3)])]] true true := by
  refine ⟨rfl, rfl, fun h => ?_⟩
  have h2 : [("k", Value.dict [("y", Value.num 2), ("z", Value.num 3)])]
      = [("k", Value.dict [("z", Value.num 3)])] := h
  simp at h2

/--
Claim C5: the spec says the environment overlay strips the prefix from each
selected name and *optionally* lowercases the rest.  In the code
(src/argparseware/config.py lines 322-323) the stripping happens only inside
`if self.lower:`, so with `lower` unset the stored key keeps the full
variable name, prefix included — contradicting the middleware's own
docstring ("the resulting argument key will be `foo` rather than `FOO`").
With `lower` set the spec's example does hold, non-prefixed variables
contribute nothing, and the collected mapping is merged into the namespace.
-/
theorem env_overlay_strips_only_when_lowering :
    envCollect "PFX_" true [("PFX_FOO", "1"), ("PFX_BAR", "hello"), ("OTHER", "ignored")]
      = [("foo", Value.num 1), ("bar", Value.str "hello")] ∧
    environmentConfigRun "PFX_" true false true
        [("PFX_FOO", "1"), ("PFX_BAR", "hello"), ("OTHER", "ignored")] []
      = [("foo", Value.num 1), ("bar", Value.str "hello")] ∧
    envCollect "PFX_" false [("PFX_FOO", "1")] = [("PFX_FOO", Value.num 1)] ∧
    envCollect "PFX_" false [("PFX_FOO", "1")] ≠ [("FOO", Value.num 1)] := by
  refine ⟨rfl, rfl, rfl, fun h => ?_⟩
  have h2 : [("PFX_FOO", Value.num 1)] = [("FOO", Value.num 1)] := h
  simp at h2

/--
Claim C6: the spec says sub-node extraction walks the segments in order into
the merged document, so a multi-segment path selects the nested subtree.  In
the code (src/argparseware/config.py line 97) each loop iteration reads
`result.get(item, {})` from the *top-level* result instead of from `ref`, so
the walk never descends and the extracted value is just the top-level entry
named by the last segment.  On the document
`{'a': {'b': {'inner': 1}}, 'b': {'top': 2}}` with node path `['a', 'b']`
the code extracts `{'top': 2}` while the spec's walk (`extractNodeSpec`)
reaches `{'inner': 1}`; `ConfigMiddleware.run` therefore updates the
namespace with the wrong subtree.
-/
theorem node_extraction_never_descends :
    extractNode [("a", Value.dict [("b", Value.dict [("inner", Value.num 1)])]),
        ("b", Value.dict [("top", Value.num 2)])] ["a", "b"]
      = Value.dict [("top", Value.num 2)] ∧
    extractNodeSpec [("a", Value.dict [("b", Value.dict [("inner", Value.num 1)])]),
        ("b", Value.dict [("top", Value.num 2)])] ["a", "b"]
      = Value.dict [("inner", Value.num 1)] ∧
    extractNode [("a", Value.dict [("b", Value.dict [("inner", Value.num 1)])]),
        ("b", Value.dict [("top", Value.num 2)])] ["a", "b"]
      ≠ extractNodeSpec [("a", Value.dict [("b", Value.dict [("inner", Value.num 1)])]),
          ("b", Value.dict [("top", Value.num 2)])] ["a", "b"] ∧
    configMiddlewareRun [] [("a", Value.dict [("b", Value.dict [("inner", Value.num 1)])]),
        ("b", Value.dict [("top", Value.num 2)])] false true (NodeSpec.many ["a", "b"])
      = some [("top", Value.num 2)] := by
  refine ⟨rfl, rfl, fun h => ?_, rfl⟩
  have h2 : (Value.dict [("top", Value.num 2)] : Value)
      = Value.dict [("inner", Value.num 1)] := h
  simp at h2

/--
Claim C4 counterexample: `ConfigMiddleware.configure` keeps no record of the
parser it configured — it unconditionally calls `add_argument`, so invoking
it twice with the same parser registers the `--config` flag twice.
-/
theorem config_configure_twice_double_registers :
    (configMiddlewareConfigure (configMiddlewareConfigure ⟨0, []⟩)).flags
      = ["--config", "--config"] := rfl

/--
Claim C4 amended: only `CommandsMiddleware` records the last parser it
configured (`self.argparser`) and short-circuits when configured again with
the same parser; the configuration middlewares (`ConfigMiddleware`,
`InlineConfigMiddleware`) keep no such record and register their flag again
on every `configure` call.
-/
theorem commands_configure_idempotent_config_middlewares_not :
    (∀ (m : CommandsMiddlewareState) (p : ParserModel),
      commandsMiddlewareConfigure (commandsMiddlewareConfigure m p).1
          (commandsMiddlewareConfigure m p).2
        = commandsMiddlewareConfigure m p) ∧
    (∀ p : ParserModel,
      (configMiddlewareConfigure (configMiddlewareConfigure p)).flags
        = p.flags ++ ["--config", "--config"]) ∧
    (∀ p : ParserModel,
      (inlineConfigConfigure (inlineConfigConfigure p)).flags
        = p.flags ++ ["--env", "--env"]) := by
  refine ⟨?_, ?_, ?_⟩
  · intro m p
    by_cases h : m.argparser = some p.pid <;>
      simp [commandsMiddlewareConfigure, h]
  · intro p
    simp [configMiddlewareConfigure]
  · intro p
    simp [inlineConfigConfigure]

/-- A deleted key is no longer among the keys. -/
theorem not_mem_dkeys_ddel (d : Dict) (k : String) : k ∉ dkeys (ddel d k) := by
  simp only [dkeys, ddel, List.mem_map, List.mem_filter]
  rintro ⟨kv, ⟨-, hne⟩, rfl⟩
  simp at hne

/-- Assignment preserves the presence of every key. -/
theorem mem_dkeys_dset (d : Dict) (k k' : String) (v : Value) (h : k ∈ dkeys d) :
    k ∈ dkeys (dset d k' v) := by
  induction d with
  | nil => simp [dkeys] at h
  | cons kv rest ih =>
    obtain ⟨k0, v0⟩ := kv
    simp [dkeys] at h
    rcases h with h | h
    · by_cases hk : k0 = k' <;> simp [dset, hk, dkeys, h]
    · by_cases hk : k0 = k' <;> simp [dset, hk, dkeys]
      · exact Or.inr h
      · exact Or.inr (by simpa [dkeys] using ih (by simpa [dkeys] using h))

/-- `d.update(e)` preserves the presence of every key of `d`. -/
theorem mem_dkeys_dupdate (d e : Dict) (k : String) (h : k ∈ dkeys d) :
    k ∈ dkeys (dupdate d e) := by
  induction e generalizing d with
  | nil => simpa [dupdate] using h
  | cons kv rest ih =>
    show k ∈ dkeys (dupdate (dset d kv.1 kv.2) rest)
    exact ih _ (mem_dkeys_dset _ _ _ _ h)

/--
Claim C7 counterexample: after `ConfigMiddleware.run` the raw `config_file`
key is still in the namespace — the method merges and updates but never
deletes it, so on a namespace holding `config_file` the key survives the
run, contrary to the claim that consumed synthetic flag keys are absent
afterwards.
-/
theorem config_file_key_not_deleted :
    configMiddlewareRun [("config_file", Value.str "app.json")] [("x", Value.num 1)]
        false true NodeSpec.noneSpec
      = some [("config_file", Value.str "app.json"), ("x", Value.num 1)] ∧
    "config_file" ∈ dkeys [("config_file", Value.str "app.json"), ("x", Value.num 1)] := by
  exact ⟨rfl, by simp [dkeys]⟩

/--
Claim C7 amended: `InlineConfigMiddleware.run` does delete its consumed
`config_env` key after merging, so it never leaks; `ConfigMiddleware.run`
deletes nothing, so the raw `config_file` key remains in the namespace
whenever it was present before the run.
-/
theorem inline_env_deleted_config_file_kept :
    (∀ (ns : Dict) (overwrite recurse : Bool),
      "config_env" ∉ dkeys (inlineConfigRun ns overwrite recurse)) ∧
    (∀ (ns data : Dict) (overwrite recurse : Bool) (node : NodeSpec) (d' : Dict),
      "config_file" ∈ dkeys ns →
      configMiddlewareRun ns data overwrite recurse node = some d' →
      "config_file" ∈ dkeys d') := by
  constructor
  · intro ns ow rc
    exact not_mem_dkeys_ddel _ _
  · intro ns data ow rc node d' hmem hrun
    unfold configMiddlewareRun at hrun
    split at hrun
    · dsimp only at hrun
      split at hrun
      · cases hrun
        exact mem_dkeys_dupdate _ _ _ hmem
      · cases hrun
    · cases hrun
      exact mem_dkeys_dupdate _ _ _ hmem

/--
Claim C7 witness: instantiating the amended claim on a concrete namespace:
the run of `ConfigMiddleware` keeps `config_file`, and the run of
`InlineConfigMiddleware` leaves no `config_env` behind.
-/
theorem inline_env_deleted_config_file_kept_witness :
    "config_file" ∈ dkeys [("config_file", Value.str "app.json"), ("x", Value.num 1)] ∧
    "config_env" ∉ dkeys (inlineConfigRun [("config_env", Value.null)] false true) := by
  constructor
  · exact inline_env_deleted_config_file_kept.2 [("config_file", Value.str "app.json")]
      [("x", Value.num 1)] false true NodeSpec.noneSpec
      [("config_file", Value.str "app.json"), ("x", Value.num 1)] (by simp [dkeys]) rfl
  · exact inline_env_deleted_config_file_kept.1 _ _ _

/-- A character list without `'='` makes the split loop return `none`. -/
theorem splitEqGo_none (cs : List Char) (acc : List Char) (h : '=' ∉ cs) :
    splitEqGo cs acc = none := by
  induction cs generalizing acc with
  | nil => simp [splitEqGo]
  | cons c rest ih =>
    simp only [List.mem_cons, not_or] at h
    have hne : c ≠ '=' := Ne.symm h.1
    simp [splitEqGo, hne, ih _ h.2]

/-- The split loop splits at the first `'='`. -/
theorem splitEqGo_found (as bs : List Char) (acc : List Char) (h : '=' ∉ as) :
    splitEqGo (as ++ '=' :: bs) acc = some (acc.reverse ++ as, bs) := by
  induction as generalizing acc with
  | nil => simp [splitEqGo]
  | cons a rest ih =>
    simp only [List.mem_cons, not_or] at h
    have hne : a ≠ '=' := Ne.symm h.1
    simp [splitEqGo, hne, ih _ h.2]

/--
Claim C10: both inline-override middlewares share the item loop modelled by
`parseInline`: an entry containing no `'='` is silently skipped — it
contributes nothing and (the function being total) never raises — while an
entry containing `'='` is split exactly once at its *first* `'='`, the key
being everything before it and the value the JSON-decoded (with string
fallback) remainder.
-/
theorem inline_items_skip_no_eq_and_split_first :
    (∀ (x : String) (xs : List String), '=' ∉ x.toList →
      parseInline (x :: xs) = parseInline xs) ∧
    (∀ (a b : String) (xs : List String), '=' ∉ a.toList →
      parseInline ((a ++ "=" ++ b) :: xs)
        = [(a, decodeValue b)] :: parseInline xs) := by
  constructor
  · intro x xs h
    have h' : '=' ∉ x.data := h
    simp [parseInline, splitEq, splitEqGo_none _ _ h']
  · intro a b xs h
    have h' : '=' ∉ a.data := h
    have hl : (a ++ "=" ++ b).toList = a.toList ++ '=' :: b.toList := by
      simp [String.toList, String.data_append]
    simp [parseInline, splitEq, hl, String.toList, splitEqGo_found _ _ _ h']

/--
Claim C10 witness: on the concrete entries `noequals` and `count=3` the loop
skips the first and splits the second, yielding only `{count: 3}`.
-/
theorem inline_items_skip_no_eq_and_split_first_witness :
    parseInline ["noequals", "count=3"] = [[("count", Value.num 3)]] := by
  have h1 := inline_items_skip_no_eq_and_split_first.1 "noequals" ["count=3"] (by decide)
  have h2 := inline_items_skip_no_eq_and_split_first.2 "count" "3" [] (by decide)
  have hs : ("count" ++ "=" ++ "3" : String) = "count=3" := by decide
  rw [h1, ← hs, h2]
  simp [parseInline, decodeValue, jsonLoads, digitsNat?, digitsNat?.go]

/-- The configure loop only ever appends to the middleware list: the initial
list is a prefix of the final one. -/
theorem configureLoop_fst_prefix (mws : List MW) (i : Nat) (done : List MW) :
    ∃ ext, (configureLoop mws i done).1 = mws ++ ext := by
  induction mws, i, done using configureLoop.induct with
  | case1 mws i done h ih =>
    obtain ⟨ext, hext⟩ := ih
    refine ⟨mws[i].children ++ ext, ?_⟩
    rw [configureLoop, dif_pos h, hext, List.append_assoc]
  | case2 mws i done h =>
    exact ⟨[], by rw [configureLoop, dif_neg h, List.append_nil]⟩

/-- Loop invariant: the middlewares configured so far, plus the part of the
final list from the current index on, make up exactly the final list. -/
theorem configureLoop_snd_eq (mws : List MW) (i : Nat) (done : List MW) :
    (configureLoop mws i done).2 = done ++ ((configureLoop mws i done).1).drop i := by
  induction mws, i, done using configureLoop.induct with
  | case1 mws i done h ih =>
    rw [configureLoop, dif_pos h]
    rw [ih]
    obtain ⟨ext, hext⟩ :=
      configureLoop_fst_prefix (mws ++ mws[i].children) (i + 1) (done ++ [mws[i]])
    rw [hext]
    have hlen : i < (mws ++ mws[i].children ++ ext).length := by
      simp
      omega
    rw [List.drop_eq_getElem_cons hlen]
    have hget : (mws ++ mws[i].children ++ ext)[i] = mws[i] := by
      rw [List.getElem_append_left, List.getElem_append_left]
      all_goals try simp
      all_goals omega
    rw [hget]
    simp
  | case2 mws i done h =>
    rw [configureLoop, dif_neg h]
    have : mws.drop i = [] := List.drop_eq_nil_of_le (by omega)
    simp [this]

/--
Claim C8: the configure phase traverses the middleware list by index,
re-checking the (possibly grown) length after each `configure` call, so
every middleware present in the final list — including every middleware
appended by another middleware's `configure` — has had its `configure`
invoked by the time the loop ends, before argv parsing begins: the list of
configured middlewares equals the final middleware list.
-/
theorem configure_phase_reaches_appended_middleware (mws : List MW) :
    (configurePhase mws).2 = (configurePhase mws).1 := by
  have h := configureLoop_snd_eq mws 0 []
  simpa [configurePhase] using h

/--
Claim C9: the dispatcher invokes the command whose registered path string
equals the reconstructed space-joined path exactly, and no other: whenever
the run dispatches to a path `p`, `p` is the reconstructed name and the name
of a registered command; and whenever the reconstructed name is registered,
the run dispatches to exactly it (no prefix or fuzzy matching — a mismatch
of even one character falls through to help-and-exit).
-/
theorem commands_dispatch_exact_match (cmds : List Command) (dest : Option String) (ns : Dict) :
    (∀ (p : String) (b : Bool),
      (commandsRun cmds dest ns).1 = RunOutcome.dispatched p b →
        p = pyJoin " " (walkParts ns []).1 ∧ p ∈ cmds.map Command.command) ∧
    (pyJoin " " (walkParts ns []).1 ∈ cmds.map Command.command →
      ∃ b, (commandsRun cmds dest ns).1
        = RunOutcome.dispatched (pyJoin " " (walkParts ns []).1) b) := by
  constructor
  · intro p b hp
    cases hfind : cmds.find? (fun c => c.command == pyJoin " " (walkParts ns []).1) with
    | some c =>
      simp only [commandsRun, hfind] at hp
      have hc : c.command = pyJoin " " (walkParts ns []).1 := by
        have := List.find?_some hfind
        simpa using this
      cases hp
      exact ⟨hc, List.mem_map.mpr ⟨c, List.mem_of_find?_eq_some hfind, rfl⟩⟩
    | none =>
      simp only [commandsRun, hfind] at hp
      exact absurd hp (by simp)
  · intro hmem
    cases hfind : cmds.find? (fun c => c.command == pyJoin " " (walkParts ns []).1) with
    | some c =>
      have hc : c.command = pyJoin " " (walkParts ns []).1 := by
        have := List.find?_some hfind
        simpa using this
      refine ⟨c.hasHandler, ?_⟩
      simp only [commandsRun, hfind]
      rw [hc]
    | none =>
      exfalso
      rw [List.find?_eq_none] at hfind
      obtain ⟨c, hcmem, hceq⟩ := List.mem_map.mp hmem
      have hnc : ¬ (c.command == pyJoin " " (walkParts ns []).1) = true := by
        simpa using hfind c hcmem
      exact hnc (by simp [hceq])

/--
Claim C9 witness: with both `db` and `db migrate` registered and a namespace
whose synthetic keys select `db` then `migrate`, the run dispatches to
`db migrate` — which by the exact-match theorem is the reconstructed
space-joined path and a registered command name.
-/
theorem commands_dispatch_exact_match_witness :
    "db migrate" = pyJoin " " (walkParts [("__cmd_", Value.str "db"),
        ("__cmd_db", Value.str "migrate")] []).1 ∧
    "db migrate" ∈ ([⟨"db", true⟩, ⟨"db migrate", true⟩] : List Command).map Command.command := by
  apply (commands_dispatch_exact_match [⟨"db", true⟩, ⟨"db migrate", true⟩] (some "command")
      [("__cmd_", Value.str "db"), ("__cmd_db", Value.str "migrate")]).1 "db migrate" true
  simp [commandsRun, walkParts, tempKey, pyJoin, dget, ddel, dset, List.find?]

end Argparseware
